import Mathlib

/-!
A verification development for the redis-rate-limiter repository.

Shallow embedding of the two rate-limiting strategies:

* `counterStrategyRun` embeds `(*counterStrategy).Run` from `counter.go`
  (INCR + TTL pipeline, self-healing EXPIRE, post-increment comparison
  against the limit).
* `sortedSetCounterRun` embeds `(*sortedSetCounter).Run` from
  `sorted_set_counter.go` (ZCOUNT pre-check, then a pipelined
  ZREMRANGEBYSCORE "0" windowStart / ZADD token now / ZCOUNT -inf +inf).

Modelling conventions:

* All instants and durations are integers in milliseconds.  The Go code
  only ever adds or subtracts times and converts them with `UnixMilli`,
  so a single integer time unit is faithful for millisecond-aligned
  clocks (the only clocks the sorted-set scores can observe).
* The Redis store is a total function from keys to per-key state.
  Pipelined commands execute sequentially, exactly as Redis executes the
  commands of a (non-transactional) pipeline.
* Failures of the store are injected through an explicit error schedule
  (one Boolean per command issued by a `Run` call); the Go `(Result,
  error)` return pair is embedded as `RunOut` with an `Option Result`
  and a Boolean error flag, so that "non-nil Result together with a
  non-nil error" is expressible and refutable.  No theorem below
  inspects the store left behind by an aborted call.
* `uuid.New()` is embedded as an externally supplied token parameter;
  the determinism claim quantifies over the token draws.
-/

namespace RedisRateLimiter

/-- `State` from `limiter.go`: the two-valued admission verdict. -/
inductive State where
  | Deny
  | Allow
deriving DecidableEq, Repr

/-- `Request` from `limiter.go`: key, limit (uint64), window duration. -/
structure Request where
  key : String
  limit : Nat
  duration : Int
deriving DecidableEq, Repr

/-- `Result` from `limiter.go`: verdict, count and window expiry time. -/
structure Result where
  state : State
  totalRequests : Nat
  expiresAt : Int
deriving DecidableEq, Repr

/-- The Go return pair `(*Result, error)` of a `Run` call together with the
store state the call leaves behind.  `hasErr` is `true` exactly when the Go
error value is non-nil. -/
structure RunOut (σ : Type) where
  result : Option Result
  hasErr : Bool
  store : σ

/-! ### The fixed-window counter store (counter.go) -/

/-- `keyWithoutExpire` from `counter.go`: the TTL reply meaning the key
exists but carries no expiry. -/
def keyWithoutExpire : Int := -1

/-- Store-resident state of one fixed-window key: the INCR counter value and
its optional remaining TTL (`none` = no expiry set). -/
structure CounterKey where
  value : Nat
  ttl : Option Int
deriving DecidableEq, Repr

/-- The Redis store as seen by the fixed-window strategy. -/
def CounterStore : Type := String → Option CounterKey

/-- A store with no keys. -/
def emptyCounterStore : CounterStore := fun _ => none

/-- Redis INCR: create the key at 1 (without expiry) or increment it,
returning the post-increment value and the updated store. -/
def counterIncr (st : CounterStore) (k : String) : Nat × CounterStore :=
  match st k with
  | none => (1, fun k2 => if k2 = k then some ⟨1, none⟩ else st k2)
  | some c => (c.value + 1, fun k2 => if k2 = k then some ⟨c.value + 1, c.ttl⟩ else st k2)

/-- Redis TTL: `-2` when the key does not exist, `-1` when it exists without
an expiry, otherwise the remaining TTL. -/
def counterTTLObserved (st : CounterStore) (k : String) : Int :=
  match st k with
  | none => -2
  | some c => match c.ttl with
    | none => keyWithoutExpire
    | some t => t

/-- Redis EXPIRE: set the remaining TTL of an existing key. -/
def counterExpire (st : CounterStore) (k : String) (d : Int) : CounterStore :=
  fun k2 =>
    if k2 = k then
      match st k with
      | none => none
      | some c => some ⟨c.value, some d⟩
    else st k2

/-- The counter value a key currently holds (0 for an absent key). -/
def ckeyValue (st : CounterStore) (k : String) : Nat :=
  match st k with
  | none => 0
  | some c => c.value

/-- The expiry a key currently holds (`none` for an absent key or one
without expiry). -/
def ckeyTTL (st : CounterStore) (k : String) : Option Int :=
  match st k with
  | none => none
  | some c => c.ttl

/-- Error schedule for one fixed-window `Run` call: whether the pipeline
`Exec`, the `Incr` reply, the `TTL` reply, or the `Expire` call fails. -/
structure CounterErrs where
  execErr : Bool
  incrErr : Bool
  ttlErr : Bool
  expireErr : Bool
deriving DecidableEq, Repr

/-- The error-free schedule. -/
def noCounterErrs : CounterErrs := ⟨false, false, false, false⟩

/-- Embedding of `(*counterStrategy).Run` from `counter.go`:
pipeline INCR + TTL, abort on `Exec` or `Incr` errors, treat a TTL error or
a `-1` reply by re-arming the expiry (aborting if that write fails), take
`expiresAt = now + ttlDuration`, and compare the post-increment count
against the limit (`> limit` denies). -/
def counterStrategyRun (e : CounterErrs) (now : Int) (st : CounterStore)
    (r : Request) : RunOut CounterStore :=
  let p := counterIncr st r.key
  let totalRequests := p.1
  let st1 := p.2
  if e.execErr then ⟨none, true, st1⟩
  else if e.incrErr then ⟨none, true, st1⟩
  else
    let d := counterTTLObserved st1 r.key
    let needsExpire : Bool := e.ttlErr || decide (d = keyWithoutExpire)
    if needsExpire && e.expireErr then ⟨none, true, st1⟩
    else
      let ttlDuration : Int := if needsExpire then r.duration else d
      let st2 := if needsExpire then counterExpire st1 r.key r.duration else st1
      let expiresAt := now + ttlDuration
      if totalRequests > r.limit then
        ⟨some ⟨State.Deny, totalRequests, expiresAt⟩, false, st2⟩
      else
        ⟨some ⟨State.Allow, totalRequests, expiresAt⟩, false, st2⟩

/-- The `Result` values of a sequence of error-free fixed-window `Run` calls
for one request, at the listed call times, threading the store through. -/
def counterScriptResults : List Int → Request → CounterStore → List (Option Result)
  | [], _, _ => []
  | t :: ts, r, st =>
    let o := counterStrategyRun noCounterErrs t st r
    o.result :: counterScriptResults ts r o.store

/-! ### The sorted-set store (sorted_set_counter.go) -/

/-- Store-resident state of one sliding-window key: the ordered set as a
list of (member, score) pairs with pairwise-distinct members, plus the
key's optional expiry (which this strategy never writes). -/
structure SortedSetKey where
  entries : List (String × Int)
  ttl : Option Int
deriving DecidableEq, Repr

/-- The Redis store as seen by the sliding-window strategy.  An absent key
behaves as an empty set without expiry, as in Redis. -/
def ZStore : Type := String → SortedSetKey

/-- A store with no keys. -/
def emptyZStore : ZStore := fun _ => ⟨[], none⟩

/-- Redis ZCOUNT key m +inf: entries with score in the inclusive range
`[m, +inf]`. -/
def zcountFrom (l : List (String × Int)) (m : Int) : Nat :=
  (l.filter fun p => decide (m ≤ p.2)).length

/-- Redis ZREMRANGEBYSCORE key lo hi: drop the entries with score in the
inclusive range `[lo, hi]` (an empty range when `hi < lo`). -/
def zremRange (l : List (String × Int)) (lo hi : Int) : List (String × Int) :=
  l.filter fun p => !(decide (lo ≤ p.2) && decide (p.2 ≤ hi))

/-- Redis ZADD key score member: update the member's score when it is
already present, otherwise add the member. -/
def zadd (l : List (String × Int)) (member : String) (score : Int) :
    List (String × Int) :=
  if l.any fun p => decide (p.1 = member) then
    l.map fun p => if p.1 = member then (member, score) else p
  else l ++ [(member, score)]

/-- Replace the entry list of one key, leaving its expiry untouched. -/
def zstoreSet (st : ZStore) (k : String) (l : List (String × Int)) : ZStore :=
  fun k2 => if k2 = k then ⟨l, (st k).ttl⟩ else st k2

/-- Error schedule for one sliding-window `Run` call: whether the pre-check
ZCOUNT, the pipeline `Exec`, or any of the three pipelined command replies
(ZREMRANGEBYSCORE, ZADD, ZCOUNT) fails. -/
structure ZErrs where
  precountErr : Bool
  execErr : Bool
  zremErr : Bool
  zaddErr : Bool
  zcountErr : Bool
deriving DecidableEq, Repr

/-- The error-free schedule. -/
def noZErrs : ZErrs := ⟨false, false, false, false, false⟩

/-- Embedding of `(*sortedSetCounter).Run` from `sorted_set_counter.go`:
pre-check `ZCOUNT key windowStart +inf` and deny immediately when that read
succeeded and its count reaches the limit; otherwise run the pipeline
`ZREMRANGEBYSCORE key 0 windowStart`, `ZADD key now token`,
`ZCOUNT key -inf +inf`, abort when the `Exec` or any command reply errs,
and compare the post-batch count against the limit (`> limit` denies).
`expiresAt = now + duration` on every returned `Result`.  The `token`
parameter stands for the freshly drawn `uuid.New()`. -/
def sortedSetCounterRun (e : ZErrs) (token : String) (now : Int)
    (st : ZStore) (r : Request) : RunOut ZStore :=
  let expiresAt := now + r.duration
  let minimum := now - r.duration
  let preCount := zcountFrom (st r.key).entries minimum
  if !e.precountErr && decide (preCount ≥ r.limit) then
    ⟨some ⟨State.Deny, preCount, expiresAt⟩, false, st⟩
  else
    let afterRem := zremRange (st r.key).entries 0 minimum
    let afterAdd := zadd afterRem token now
    let totalRequests := afterAdd.length
    let st2 := zstoreSet st r.key afterAdd
    if e.execErr then ⟨none, true, st2⟩
    else if e.zremErr then ⟨none, true, st2⟩
    else if e.zaddErr then ⟨none, true, st2⟩
    else if e.zcountErr then ⟨none, true, st2⟩
    else if totalRequests > r.limit then
      ⟨some ⟨State.Deny, totalRequests, expiresAt⟩, false, st2⟩
    else
      ⟨some ⟨State.Allow, totalRequests, expiresAt⟩, false, st2⟩

/-- One scripted call: the injected clock value and the request fields. -/
structure Call where
  time : Int
  key : String
  limit : Nat
  duration : Int
deriving DecidableEq, Repr

/-- The `Result` values of a sequence of error-free sliding-window `Run`
calls, each paired with the token its `uuid.New()` drew, threading the
store through. -/
def zscriptResults : List (Call × String) → ZStore → List (Option Result)
  | [], _ => []
  | (c, tok) :: rest, st =>
    let o := sortedSetCounterRun noZErrs tok c.time st ⟨c.key, c.limit, c.duration⟩
    o.result :: zscriptResults rest o.store

/-- The scores a key currently holds, in insertion order. -/
def scoresOf (st : ZStore) (k : String) : List Int :=
  ((st k).entries).map Prod.snd

/-- The members a key currently holds, in insertion order. -/
def membersOf (st : ZStore) (k : String) : List String :=
  ((st k).entries).map Prod.fst

/-! ### Helper lemmas -/

theorem aux_length_filter_le (l : List (String × Int)) (p q : String × Int → Bool)
    (h : ∀ a ∈ l, p a = true → q a = true) :
    (l.filter p).length ≤ (l.filter q).length := by
  induction l with
  | nil => simp
  | cons a t ih =>
    have ht : ∀ b ∈ t, p b = true → q b = true := fun b hb => h b (List.mem_cons_of_mem a hb)
    have hih := ih ht
    by_cases hp : p a = true
    · have hq := h a (List.mem_cons_self a t) hp
      simp only [List.filter_cons, hp, hq, if_true, List.length_cons]
      omega
    · rw [Bool.not_eq_true] at hp
      cases hq : q a <;> simp [List.filter_cons, hp, hq] <;> omega

theorem aux_zadd_length_le (l : List (String × Int)) (m : String) (s : Int) :
    (zadd l m s).length ≤ l.length + 1 := by
  unfold zadd
  split
  · simp
  · simp

theorem aux_zadd_fresh (l : List (String × Int)) (m : String) (s : Int)
    (h : ∀ p ∈ l, p.1 ≠ m) : zadd l m s = l ++ [(m, s)] := by
  unfold zadd
  rw [if_neg]
  intro hc
  rw [List.any_eq_true] at hc
  obtain ⟨p, hp, hd⟩ := hc
  exact h p hp (of_decide_eq_true hd)

theorem aux_filter_map_snd (q : Int → Bool) (l : List (String × Int)) :
    (l.filter fun p => q p.2).map Prod.snd = (l.map Prod.snd).filter q := by
  induction l with
  | nil => rfl
  | cons a t ih =>
    cases hq : q a.2 <;> simp [List.filter_cons, hq, ih]

theorem aux_zcountFrom_scores (l : List (String × Int)) (m : Int) :
    zcountFrom l m = ((l.map Prod.snd).filter fun s => decide (m ≤ s)).length := by
  unfold zcountFrom
  rw [← aux_filter_map_snd (fun s => decide (m ≤ s)) l]
  simp

theorem aux_zremRange_scores (l : List (String × Int)) (lo hi : Int) :
    (zremRange l lo hi).map Prod.snd =
      (l.map Prod.snd).filter fun s => !(decide (lo ≤ s) && decide (s ≤ hi)) := by
  unfold zremRange
  exact aux_filter_map_snd (fun s => !(decide (lo ≤ s) && decide (s ≤ hi))) l

theorem aux_members_filter_sub (l : List (String × Int)) (p : String × Int → Bool)
    (m : String) (h : m ∈ (l.filter p).map Prod.fst) : m ∈ l.map Prod.fst := by
  simp only [List.mem_map] at h ⊢
  obtain ⟨a, ha, rfl⟩ := h
  exact ⟨a, (List.mem_filter.mp ha).1, rfl⟩

theorem aux_counterIncr_fst (st : CounterStore) (k : String) :
    (counterIncr st k).1 = ckeyValue st k + 1 := by
  unfold counterIncr ckeyValue
  cases st k <;> simp

theorem aux_counterIncr_value (st : CounterStore) (k : String) :
    ckeyValue (counterIncr st k).2 k = ckeyValue st k + 1 := by
  unfold counterIncr ckeyValue
  cases h : st k <;> simp [h]

theorem aux_counterExpire_value (st : CounterStore) (k : String) (d : Int) (k2 : String) :
    ckeyValue (counterExpire st k d) k2 = ckeyValue st k2 := by
  unfold counterExpire ckeyValue
  by_cases h : k2 = k
  · subst h
    cases st k2 <;> simp
  · simp [h]

theorem aux_counterIncr_at (st : CounterStore) (k : String) :
    (counterIncr st k).2 k = some ⟨ckeyValue st k + 1, ckeyTTL st k⟩ := by
  unfold counterIncr ckeyValue ckeyTTL
  cases h : st k <;> simp [h]

theorem aux_counterExpire_at (st : CounterStore) (k : String) (d : Int)
    (c : CounterKey) (h : st k = some c) :
    counterExpire st k d k = some ⟨c.value, some d⟩ := by
  unfold counterExpire
  simp [h]

/-! ### Claim theorems -/

/-- Claim C10: for both strategies, every `Run` call returning a non-nil
`Result` with `State = Allow` reports `TotalRequests ≤ Limit`; an over-limit
count is only ever reported together with `Deny`. -/
theorem claim_C10 :
    (∀ (e : CounterErrs) (now : Int) (st : CounterStore) (r : Request) (res : Result),
        (counterStrategyRun e now st r).result = some res →
          res.state = State.Allow → res.totalRequests ≤ r.limit) ∧
    (∀ (e : ZErrs) (tok : String) (now : Int) (st : ZStore) (r : Request) (res : Result),
        (sortedSetCounterRun e tok now st r).result = some res →
          res.state = State.Allow → res.totalRequests ≤ r.limit) := by
  constructor
  · intro e now st r res h hA
    obtain ⟨s, tot, ea⟩ := res
    simp only at hA
    subst hA
    unfold counterStrategyRun at h
    simp only [apply_ite RunOut.result] at h
    repeat' split at h
    all_goals simp_all
  · intro e tok now st r res h hA
    obtain ⟨s, tot, ea⟩ := res
    simp only at hA
    subst hA
    unfold sortedSetCounterRun at h
    simp only [apply_ite RunOut.result] at h
    repeat' split at h
    all_goals simp_all

/-- Witness for claim C10 at a concrete allowed call. -/
theorem claim_C10_witness :
    ((counterStrategyRun noCounterErrs 0 emptyCounterStore ⟨"k", 5, 60000⟩).result =
      some ⟨State.Allow, 1, 60000⟩) ∧
    (Result.totalRequests ⟨State.Allow, 1, 60000⟩ ≤ Request.limit ⟨"k", 5, 60000⟩) :=
  ⟨by decide,
   claim_C10.1 noCounterErrs 0 emptyCounterStore ⟨"k", 5, 60000⟩
     ⟨State.Allow, 1, 60000⟩ (by decide) rfl⟩

theorem aux_counterTTLObserved_incr (st : CounterStore) (k : String)
    (h : ckeyTTL st k = none) :
    counterTTLObserved (counterIncr st k).2 k = keyWithoutExpire := by
  unfold counterTTLObserved
  rw [aux_counterIncr_at st k, h]

theorem aux_counter_expire_store (st : CounterStore) (k : String) (d : Int) :
    counterExpire (counterIncr st k).2 k d k = some ⟨ckeyValue st k + 1, some d⟩ := by
  rw [aux_counterExpire_at _ _ _ _ (aux_counterIncr_at st k)]

theorem aux_counter_keep_store (st : CounterStore) (k : String)
    (h : ¬counterTTLObserved (counterIncr st k).2 k = keyWithoutExpire) :
    ∃ c, (counterIncr st k).2 k = some c ∧ c.ttl.isSome = true := by
  cases hc : ckeyTTL st k with
  | none => exact absurd (aux_counterTTLObserved_incr st k hc) h
  | some t =>
    refine ⟨⟨ckeyValue st k + 1, some t⟩, ?_, rfl⟩
    rw [aux_counterIncr_at st k, hc]

theorem aux_zstoreSet_ttl (st : ZStore) (k : String) (l : List (String × Int))
    (k2 : String) : ((zstoreSet st k l) k2).ttl = (st k2).ttl := by
  unfold zstoreSet
  by_cases h : k2 = k
  · subst h
    simp
  · simp [h]

/-- Claim C8: with `limit = 0`, every error-free `Run` call of either
strategy returns `Deny`; no request is admitted under a zero limit. -/
theorem claim_C8 :
    ∀ (now : Int) (st : CounterStore) (zst : ZStore) (tok : String) (r : Request),
      r.limit = 0 →
      (∃ res, (counterStrategyRun noCounterErrs now st r).result = some res ∧
        res.state = State.Deny) ∧
      (∃ res, (sortedSetCounterRun noZErrs tok now zst r).result = some res ∧
        res.state = State.Deny) := by
  intro now st zst tok r h0
  constructor
  · unfold counterStrategyRun
    simp only [noCounterErrs, apply_ite RunOut.result]
    simp [aux_counterIncr_fst, h0]
  · unfold sortedSetCounterRun
    simp only [noZErrs, apply_ite RunOut.result]
    simp [h0, Nat.zero_le]

/-- Witness for claim C8 at a concrete zero-limit call. -/
theorem claim_C8_witness :
    (∃ res, (counterStrategyRun noCounterErrs 0 emptyCounterStore ⟨"k", 0, 60000⟩).result =
        some res ∧ res.state = State.Deny) ∧
    (∃ res, (sortedSetCounterRun noZErrs "t" 0 emptyZStore ⟨"k", 0, 60000⟩).result =
        some res ∧ res.state = State.Deny) :=
  claim_C8 0 emptyCounterStore emptyZStore "t" ⟨"k", 0, 60000⟩ rfl

/-- Claim C7 is refuted by these two runs: a failing sliding-window
pre-check read and a failing fixed-window TTL read are both tolerated — the
call continues and returns a non-nil `Result` with a nil error instead of
aborting. -/
theorem claim_C7_counterexample :
    ((sortedSetCounterRun ⟨true, false, false, false, false⟩ "t" 0 emptyZStore
        ⟨"k", 5, 60000⟩).result =
      some ⟨State.Allow, 1, 60000⟩ ∧
     (sortedSetCounterRun ⟨true, false, false, false, false⟩ "t" 0 emptyZStore
        ⟨"k", 5, 60000⟩).hasErr = false) ∧
    ((counterStrategyRun ⟨false, false, true, false⟩ 0 emptyCounterStore
        ⟨"k", 5, 60000⟩).result =
      some ⟨State.Allow, 1, 60000⟩ ∧
     (counterStrategyRun ⟨false, false, true, false⟩ 0 emptyCounterStore
        ⟨"k", 5, 60000⟩).hasErr = false) := by
  decide

/-- Claim C7 (amended): no `Run` call ever returns a non-nil `Result`
together with a non-nil error; every failure of the fixed-window pipeline
`Exec` or `Incr` reply aborts with a nil `Result`, as does a failing
`Expire` write on the paths that re-arm the expiry; and, once past the
pre-check, every failure of the sliding-window batch or of any command
reply inside it aborts with a nil `Result`.  The two tolerated failures
are the sliding-window pre-check read (the call falls through to the
batch) and the fixed-window TTL read (the call re-arms the expiry). -/
theorem claim_C7_amended :
    (∀ (e : CounterErrs) (now : Int) (st : CounterStore) (r : Request),
        (counterStrategyRun e now st r).result.isSome = true →
          (counterStrategyRun e now st r).hasErr = false) ∧
    (∀ (e : ZErrs) (tok : String) (now : Int) (st : ZStore) (r : Request),
        (sortedSetCounterRun e tok now st r).result.isSome = true →
          (sortedSetCounterRun e tok now st r).hasErr = false) ∧
    (∀ (e : CounterErrs) (now : Int) (st : CounterStore) (r : Request),
        e.execErr = true ∨ e.incrErr = true →
          (counterStrategyRun e now st r).result = none ∧
          (counterStrategyRun e now st r).hasErr = true) ∧
    (∀ (e : CounterErrs) (now : Int) (st : CounterStore) (r : Request),
        e.execErr = false → e.incrErr = false → e.expireErr = true →
        (e.ttlErr = true ∨
          counterTTLObserved (counterIncr st r.key).2 r.key = keyWithoutExpire) →
          (counterStrategyRun e now st r).result = none ∧
          (counterStrategyRun e now st r).hasErr = true) ∧
    (∀ (e : ZErrs) (tok : String) (now : Int) (st : ZStore) (r : Request),
        (e.precountErr = true ∨
          zcountFrom (st r.key).entries (now - r.duration) < r.limit) →
        (e.execErr = true ∨ e.zremErr = true ∨ e.zaddErr = true ∨ e.zcountErr = true) →
          (sortedSetCounterRun e tok now st r).result = none ∧
          (sortedSetCounterRun e tok now st r).hasErr = true) := by
  refine ⟨?_, ?_, ?_, ?_, ?_⟩
  · intro e now st r h
    unfold counterStrategyRun at h ⊢
    simp only [apply_ite RunOut.result] at h
    simp only [apply_ite RunOut.hasErr]
    repeat' split at h
    all_goals simp_all
  · intro e tok now st r h
    unfold sortedSetCounterRun at h ⊢
    simp only [apply_ite RunOut.result] at h
    simp only [apply_ite RunOut.hasErr]
    repeat' split at h
    all_goals simp_all
  · intro e now st r h
    unfold counterStrategyRun
    simp only [apply_ite RunOut.result, apply_ite RunOut.hasErr]
    rcases h with h | h
    · simp [h]
    · repeat' split
      all_goals simp_all
  · intro e now st r he hi hx hc
    unfold counterStrategyRun
    simp only [apply_ite RunOut.result, apply_ite RunOut.hasErr]
    rcases hc with h | h
    · simp [he, hi, hx, h]
    · simp [he, hi, hx, h]
  · intro e tok now st r hpre herr
    unfold sortedSetCounterRun
    simp only [apply_ite RunOut.result, apply_ite RunOut.hasErr]
    have hfirst : (!e.precountErr &&
        decide (zcountFrom (st r.key).entries (now - r.duration) ≥ r.limit)) = false := by
      rcases hpre with h | h <;> simp [h]
    rw [hfirst]
    simp only [Bool.false_eq_true, if_false]
    repeat' split
    all_goals simp_all

/-- Witness for claim C7 (amended) at concrete aborting runs. -/
theorem claim_C7_amended_witness :
    ((counterStrategyRun ⟨true, false, false, false⟩ 0 emptyCounterStore
        ⟨"k", 5, 60000⟩).result = none ∧
     (counterStrategyRun ⟨true, false, false, false⟩ 0 emptyCounterStore
        ⟨"k", 5, 60000⟩).hasErr = true) ∧
    ((sortedSetCounterRun ⟨false, true, false, false, false⟩ "t" 0 emptyZStore
        ⟨"k", 5, 60000⟩).result = none ∧
     (sortedSetCounterRun ⟨false, true, false, false, false⟩ "t" 0 emptyZStore
        ⟨"k", 5, 60000⟩).hasErr = true) :=
  ⟨claim_C7_amended.2.2.1 ⟨true, false, false, false⟩ 0 emptyCounterStore
     ⟨"k", 5, 60000⟩ (Or.inl rfl),
   claim_C7_amended.2.2.2.2 ⟨false, true, false, false, false⟩ "t" 0 emptyZStore
     ⟨"k", 5, 60000⟩ (Or.inr (by decide)) (Or.inl rfl)⟩

/-- Claim C4 is refuted by the sliding-window strategy: this error-free run
creates store-resident state for the key (inserts its first ordered-set
entry) yet establishes no expiry on the key — the strategy issues no
expiry command at all. -/
theorem claim_C4_counterexample :
    ((sortedSetCounterRun noZErrs "t" 1000 emptyZStore ⟨"k", 5, 60000⟩).store "k").entries =
      [("t", 1000)] ∧
    ((sortedSetCounterRun noZErrs "t" 1000 emptyZStore ⟨"k", 5, 60000⟩).store "k").ttl =
      none := by
  decide

/-- Claim C4 (amended): the fixed-window strategy satisfies the invariant —
every `Run` call that returns a `Result` leaves the key with an expiry set,
and a previously absent key leaves with counter 1 and expiry equal to the
request duration — while the sliding-window strategy never touches any
key's expiry. -/
theorem claim_C4_amended :
    (∀ (e : CounterErrs) (now : Int) (st : CounterStore) (r : Request),
        (counterStrategyRun e now st r).result.isSome = true →
          ∃ c, (counterStrategyRun e now st r).store r.key = some c ∧
            c.ttl.isSome = true) ∧
    (∀ (e : CounterErrs) (now : Int) (st : CounterStore) (r : Request),
        (counterStrategyRun e now st r).result.isSome = true → st r.key = none →
          (counterStrategyRun e now st r).store r.key = some ⟨1, some r.duration⟩) ∧
    (∀ (e : ZErrs) (tok : String) (now : Int) (st : ZStore) (r : Request) (k : String),
        ((sortedSetCounterRun e tok now st r).store k).ttl = (st k).ttl) := by
  refine ⟨?_, ?_, ?_⟩
  · intro e now st r h
    unfold counterStrategyRun at h ⊢
    simp only [apply_ite RunOut.result] at h
    simp only [apply_ite RunOut.store]
    repeat' split at h
    all_goals simp_all
    all_goals rename_i hcond
    all_goals first
    | exact ⟨⟨ckeyValue st r.key + 1, some r.duration⟩,
        aux_counter_expire_store st r.key r.duration, rfl⟩
    | exact aux_counter_keep_store st r.key hcond.2
  · intro e now st r h hnone
    have httl : ckeyTTL st r.key = none := by
      unfold ckeyTTL
      rw [hnone]
    have hval : ckeyValue st r.key = 0 := by
      unfold ckeyValue
      rw [hnone]
    unfold counterStrategyRun at h ⊢
    simp only [apply_ite RunOut.result] at h
    simp only [apply_ite RunOut.store]
    repeat' split at h
    all_goals simp_all
    all_goals rename_i hcond
    all_goals first
    | (rw [aux_counter_expire_store st r.key r.duration, hval])
    | exact absurd (aux_counterTTLObserved_incr st r.key httl) hcond.2
  · intro e tok now st r k
    unfold sortedSetCounterRun
    simp only [apply_ite RunOut.store]
    repeat' split
    all_goals simp [aux_zstoreSet_ttl]

/-- Witness for claim C4 (amended) at a concrete fresh-key call. -/
theorem claim_C4_amended_witness :
    (counterStrategyRun noCounterErrs 0 emptyCounterStore ⟨"k", 5, 60000⟩).store "k" =
      some ⟨1, some 60000⟩ :=
  claim_C4_amended.2.1 noCounterErrs 0 emptyCounterStore ⟨"k", 5, 60000⟩
    (by decide) rfl

theorem aux_zrem_length_le (l : List (String × Int)) (m : Int)
    (hpos : ∀ p ∈ l, 0 ≤ p.2) :
    (zremRange l 0 m).length ≤ zcountFrom l m := by
  unfold zremRange zcountFrom
  apply aux_length_filter_le
  intro a ha hk
  have h0 : (0 : Int) ≤ a.2 := hpos a ha
  simp only [Bool.not_eq_eq_eq_not, Bool.not_true, Bool.and_eq_false_iff,
    decide_eq_false_iff_not, not_le] at hk
  simp only [decide_eq_true_eq]
  rcases hk with hk | hk
  · omega
  · omega

theorem aux_zstoreSet_at (st : ZStore) (k : String) (l : List (String × Int)) :
    (zstoreSet st k l) k = ⟨l, (st k).ttl⟩ := by
  unfold zstoreSet
  simp

theorem aux_counterScript_length (ts : List Int) (r : Request) (st : CounterStore) :
    (counterScriptResults ts r st).length = ts.length := by
  induction ts generalizing st with
  | nil => rfl
  | cons t ts ih => simp [counterScriptResults, ih]

theorem aux_counterRun_state (now : Int) (st : CounterStore) (r : Request) :
    (counterStrategyRun noCounterErrs now st r).result.map Result.state =
      some (if ckeyValue st r.key + 1 > r.limit then State.Deny else State.Allow) := by
  unfold counterStrategyRun
  simp [noCounterErrs, aux_counterIncr_fst, apply_ite RunOut.result,
    apply_ite (Option.map Result.state)]
  split <;> simp_all

theorem aux_counterRun_total (now : Int) (st : CounterStore) (r : Request) :
    (counterStrategyRun noCounterErrs now st r).result.map Result.totalRequests =
      some (ckeyValue st r.key + 1) := by
  unfold counterStrategyRun
  simp [noCounterErrs, aux_counterIncr_fst, apply_ite RunOut.result,
    apply_ite (Option.map Result.totalRequests)]

theorem aux_counterRun_value (now : Int) (st : CounterStore) (r : Request) :
    ckeyValue (counterStrategyRun noCounterErrs now st r).store r.key =
      ckeyValue st r.key + 1 := by
  unfold counterStrategyRun
  simp only [noCounterErrs, apply_ite RunOut.store]
  repeat' split
  all_goals simp_all [aux_counterExpire_value, aux_counterIncr_value]

theorem aux_counterScript_get (ts : List Int) (r : Request) (st : CounterStore)
    (i : Nat) (hi : i < ts.length) :
    ((counterScriptResults ts r st)[i]?).map (fun o => o.map Result.state) =
      some (some (if ckeyValue st r.key + i + 1 > r.limit
        then State.Deny else State.Allow)) ∧
    ((counterScriptResults ts r st)[i]?).map (fun o => o.map Result.totalRequests) =
      some (some (ckeyValue st r.key + i + 1)) := by
  induction ts generalizing st i with
  | nil => simp at hi
  | cons t ts ih =>
    cases i with
    | zero =>
      refine ⟨?_, ?_⟩
      · simp only [counterScriptResults, List.getElem?_cons_zero]
        simp [aux_counterRun_state]
      · simp only [counterScriptResults, List.getElem?_cons_zero]
        simp [aux_counterRun_total]
    | succ i =>
      have hi2 : i < ts.length := by
        simp at hi
        omega
      have step := ih (counterStrategyRun noCounterErrs t st r).store i hi2
      rw [aux_counterRun_value] at step
      have harith : ckeyValue st r.key + 1 + i + 1 = ckeyValue st r.key + (i + 1) + 1 := by
        omega
      rw [harith] at step
      simpa only [counterScriptResults, List.getElem?_cons_succ] using step

/-- Claim C1: for the fixed-window strategy, starting from a key absent
from the store (a fresh, unexpired window), the Nth of a sequence of
sequential error-free `Run` calls with the same key, limit and duration
reports `TotalRequests = N` and allows iff `N ≤ limit` — the
post-increment count is the one compared against the limit. -/
theorem claim_C1 :
    ∀ (ts : List Int) (r : Request) (st : CounterStore), st r.key = none →
      ∀ i, i < ts.length →
      ∃ res, (counterScriptResults ts r st)[i]? = some (some res) ∧
        res.totalRequests = i + 1 ∧
        res.state = (if i + 1 ≤ r.limit then State.Allow else State.Deny) := by
  intro ts r st h0 i hi
  have hv : ckeyValue st r.key = 0 := by
    unfold ckeyValue
    rw [h0]
  obtain ⟨hstate, htot⟩ := aux_counterScript_get ts r st i hi
  rw [hv] at hstate htot
  cases hx : (counterScriptResults ts r st)[i]? with
  | none =>
    rw [hx] at hstate
    exact Option.noConfusion hstate
  | some o =>
    cases o with
    | none =>
      rw [hx] at htot
      simp only [Option.map_some'] at htot
      exact Option.noConfusion (Option.some.inj htot)
    | some res =>
      rw [hx] at hstate htot
      simp only [Option.map_some', Option.some.injEq] at hstate htot
      refine ⟨res, rfl, by omega, ?_⟩
      rw [hstate]
      by_cases hc : i + 1 ≤ r.limit
      · simp [hc, show ¬(0 + i + 1 > r.limit) from by omega]
      · simp [hc, show 0 + i + 1 > r.limit from by omega]

/-- Witness for claim C1: three calls under limit 2; the third is denied
with `TotalRequests = 3`. -/
theorem claim_C1_witness :
    ∃ res, (counterScriptResults [0, 0, 0] ⟨"k", 2, 60000⟩ emptyCounterStore)[2]? =
        some (some res) ∧
      res.totalRequests = 3 ∧
      res.state = (if 3 ≤ 2 then State.Allow else State.Deny) :=
  claim_C1 [0, 0, 0] ⟨"k", 2, 60000⟩ emptyCounterStore rfl 2 (by decide)

/-- Claim C2 is refuted at this input: the pre-check ZCOUNT read fails,
which the code tolerates (its `err == nil` guard merely skips the
short-circuit), so the call falls through to the mutating batch, inserts
the token, and still returns `Deny` with a nil error — the key's stored
set grows from two entries to three on a Deny-returning call.  All stored
scores are nonnegative, so the refutation does not hinge on exotic
pre-epoch timestamps. -/
theorem claim_C2_counterexample :
    ((sortedSetCounterRun ⟨true, false, false, false, false⟩ "t" 60000
        (zstoreSet emptyZStore "k" [("a", 30000), ("b", 40000)]) ⟨"k", 1, 60000⟩).result =
      some ⟨State.Deny, 3, 120000⟩) ∧
    ((sortedSetCounterRun ⟨true, false, false, false, false⟩ "t" 60000
        (zstoreSet emptyZStore "k" [("a", 30000), ("b", 40000)]) ⟨"k", 1, 60000⟩).hasErr =
      false) ∧
    (((sortedSetCounterRun ⟨true, false, false, false, false⟩ "t" 60000
        (zstoreSet emptyZStore "k" [("a", 30000), ("b", 40000)]) ⟨"k", 1, 60000⟩).store
          "k").entries =
      [("a", 30000), ("b", 40000), ("t", 60000)]) ∧
    (∀ p ∈ ((zstoreSet emptyZStore "k" [("a", 30000), ("b", 40000)]) "k").entries,
      0 ≤ p.2) := by
  decide

/-- Claim C2 (amended): for the sliding-window strategy, an error-free
`Run` (in particular, one whose pre-check read succeeded) that returns
`Deny` leaves the store exactly as it was, and reports the pre-mutation
in-window count with `expiresAt = now + duration`; in particular whenever
that count reaches the limit the call short-circuits to exactly the
denying outcome without any write.  When the pre-check read errs the code
tolerates the failure and proceeds to the mutating batch, so a Deny
returned on that path does write (see the counterexample above).  The
hypothesis that stored scores are nonnegative holds of every store the
system can build, scores being clock readings in milliseconds since the
epoch. -/
theorem claim_C2_amended :
    ∀ (tok : String) (now : Int) (st : ZStore) (r : Request),
      (∀ p ∈ (st r.key).entries, 0 ≤ p.2) →
      (∀ res, (sortedSetCounterRun noZErrs tok now st r).result = some res →
          res.state = State.Deny →
            (sortedSetCounterRun noZErrs tok now st r).store = st ∧
            res.totalRequests = zcountFrom (st r.key).entries (now - r.duration) ∧
            res.expiresAt = now + r.duration) ∧
      (zcountFrom (st r.key).entries (now - r.duration) ≥ r.limit →
        sortedSetCounterRun noZErrs tok now st r =
          ⟨some ⟨State.Deny, zcountFrom (st r.key).entries (now - r.duration),
                 now + r.duration⟩, false, st⟩) := by
  intro tok now st r hpos
  have hshort : zcountFrom (st r.key).entries (now - r.duration) ≥ r.limit →
      sortedSetCounterRun noZErrs tok now st r =
        ⟨some ⟨State.Deny, zcountFrom (st r.key).entries (now - r.duration),
               now + r.duration⟩, false, st⟩ := by
    intro hcge
    unfold sortedSetCounterRun
    simp [noZErrs, hcge]
  refine ⟨?_, hshort⟩
  intro res hres hdeny
  obtain ⟨s, tot2, ea2⟩ := res
  simp only at hdeny
  subst hdeny
  by_cases hc : zcountFrom (st r.key).entries (now - r.duration) ≥ r.limit
  · rw [hshort hc] at hres ⊢
    simp only [Option.some.injEq] at hres
    rw [← hres]
    exact ⟨rfl, rfl, rfl⟩
  · exfalso
    have h1 := aux_zadd_length_le (zremRange (st r.key).entries 0 (now - r.duration)) tok now
    have h2 := aux_zrem_length_le (st r.key).entries (now - r.duration) hpos
    have hnlt : ¬ (r.limit <
        (zadd (zremRange (st r.key).entries 0 (now - r.duration)) tok now).length) := by
      omega
    unfold sortedSetCounterRun at hres
    simp [noZErrs, hc, hnlt] at hres

/-- Witness for claim C2 (amended) at a concrete over-limit call. -/
theorem claim_C2_amended_witness :
    sortedSetCounterRun noZErrs "t" 60000
        (zstoreSet emptyZStore "k" [("a", 30000), ("b", 40000)]) ⟨"k", 1, 60000⟩ =
      ⟨some ⟨State.Deny, 2, 120000⟩, false,
       zstoreSet emptyZStore "k" [("a", 30000), ("b", 40000)]⟩ :=
  (claim_C2_amended "t" 60000 (zstoreSet emptyZStore "k" [("a", 30000), ("b", 40000)])
    ⟨"k", 1, 60000⟩ (by decide)).2 (by decide)

/-- Claim C5: on every fixed-window `Run` whose pipeline, increment and
expiry write succeed, a failing TTL read or an observed `-1` (no expiry —
which is what a previously absent key observes, the pipeline's INCR having
just created it bare) makes the call set the key's expiry to the request
duration and report `expiresAt = now + duration`; otherwise the store is
left as the increment made it and `expiresAt = now + observed TTL`. -/
theorem claim_C5 :
    ∀ (e : CounterErrs) (now : Int) (st : CounterStore) (r : Request),
      e.execErr = false → e.incrErr = false → e.expireErr = false →
      (st r.key = none →
        counterTTLObserved (counterIncr st r.key).2 r.key = keyWithoutExpire) ∧
      ((e.ttlErr = true ∨
          counterTTLObserved (counterIncr st r.key).2 r.key = keyWithoutExpire) →
        (counterStrategyRun e now st r).store =
          counterExpire (counterIncr st r.key).2 r.key r.duration ∧
        ∃ res, (counterStrategyRun e now st r).result = some res ∧
          res.expiresAt = now + r.duration) ∧
      (e.ttlErr = false →
        counterTTLObserved (counterIncr st r.key).2 r.key ≠ keyWithoutExpire →
        (counterStrategyRun e now st r).store = (counterIncr st r.key).2 ∧
        ∃ res, (counterStrategyRun e now st r).result = some res ∧
          res.expiresAt =
            now + counterTTLObserved (counterIncr st r.key).2 r.key) := by
  intro e now st r he hi hx
  refine ⟨?_, ?_, ?_⟩
  · intro hnone
    apply aux_counterTTLObserved_incr
    unfold ckeyTTL
    rw [hnone]
  · intro hcond
    have hb : (e.ttlErr ||
        decide (counterTTLObserved (counterIncr st r.key).2 r.key = keyWithoutExpire)) =
          true := by
      rcases hcond with h | h <;> simp [h]
    unfold counterStrategyRun
    simp only [he, hi, hx, hb]
    simp only [apply_ite RunOut.store, apply_ite RunOut.result]
    repeat' split
    all_goals simp_all
  · intro ht hobs
    have hb : (e.ttlErr ||
        decide (counterTTLObserved (counterIncr st r.key).2 r.key = keyWithoutExpire)) =
          false := by
      simp [ht, hobs]
    unfold counterStrategyRun
    simp only [he, hi, hx, hb]
    simp only [apply_ite RunOut.store, apply_ite RunOut.result]
    repeat' split
    all_goals simp_all

/-- Witness for claim C5 at a concrete fresh-key call. -/
theorem claim_C5_witness :
    ((counterStrategyRun noCounterErrs 0 emptyCounterStore ⟨"k", 5, 60000⟩).store =
      counterExpire (counterIncr emptyCounterStore "k").2 "k" 60000 ∧
     ∃ res, (counterStrategyRun noCounterErrs 0 emptyCounterStore ⟨"k", 5, 60000⟩).result =
        some res ∧ res.expiresAt = 0 + 60000) :=
  (claim_C5 noCounterErrs 0 emptyCounterStore ⟨"k", 5, 60000⟩ rfl rfl rfl).2.1
    (Or.inr (by decide))

/-- Claim C6: for the sliding-window strategy, when the call reaches the
batch and the batch succeeds, the returned `TotalRequests` equals the
post-batch number of entries stored at the key, `Deny` holds iff that
count strictly exceeds the limit, and `expiresAt = now + duration`. -/
theorem claim_C6 :
    ∀ (e : ZErrs) (tok : String) (now : Int) (st : ZStore) (r : Request),
      e.execErr = false → e.zremErr = false → e.zaddErr = false → e.zcountErr = false →
      (e.precountErr = true ∨
        zcountFrom (st r.key).entries (now - r.duration) < r.limit) →
      ∃ res, (sortedSetCounterRun e tok now st r).result = some res ∧
        res.totalRequests =
          ((sortedSetCounterRun e tok now st r).store r.key).entries.length ∧
        (res.state = State.Deny ↔ r.limit < res.totalRequests) ∧
        res.expiresAt = now + r.duration := by
  intro e tok now st r h1 h2 h3 h4 hpre
  have hfirst : (!e.precountErr &&
      decide (zcountFrom (st r.key).entries (now - r.duration) ≥ r.limit)) = false := by
    rcases hpre with h | h <;> simp [h]
  unfold sortedSetCounterRun
  simp only [hfirst, h1, h2, h3, h4]
  simp only [apply_ite RunOut.result, apply_ite RunOut.store]
  repeat' split
  all_goals simp_all [aux_zstoreSet_at]

/-- Witness for claim C6 at a concrete under-limit call. -/
theorem claim_C6_witness :
    ∃ res, (sortedSetCounterRun noZErrs "t" 0 emptyZStore ⟨"k", 5, 60000⟩).result =
        some res ∧
      res.totalRequests =
        ((sortedSetCounterRun noZErrs "t" 0 emptyZStore ⟨"k", 5, 60000⟩).store "k").entries.length ∧
      (res.state = State.Deny ↔ 5 < res.totalRequests) ∧
      res.expiresAt = 0 + 60000 :=
  claim_C6 noZErrs "t" 0 emptyZStore ⟨"k", 5, 60000⟩ rfl rfl rfl rfl
    (Or.inr (by decide))

theorem aux_scoresOf_zstoreSet_at (st : ZStore) (k : String) (l : List (String × Int)) :
    scoresOf (zstoreSet st k l) k = l.map Prod.snd := by
  unfold scoresOf
  rw [aux_zstoreSet_at]

theorem aux_scoresOf_zstoreSet_ne (st : ZStore) (k : String) (l : List (String × Int))
    (k2 : String) (h : k2 ≠ k) : scoresOf (zstoreSet st k l) k2 = scoresOf st k2 := by
  unfold scoresOf zstoreSet
  rw [if_neg h]

theorem aux_membersOf_zstoreSet_at (st : ZStore) (k : String) (l : List (String × Int)) :
    membersOf (zstoreSet st k l) k = l.map Prod.fst := by
  unfold membersOf
  rw [aux_zstoreSet_at]

theorem aux_membersOf_zstoreSet_ne (st : ZStore) (k : String) (l : List (String × Int))
    (k2 : String) (h : k2 ≠ k) : membersOf (zstoreSet st k l) k2 = membersOf st k2 := by
  unfold membersOf zstoreSet
  rw [if_neg h]

theorem aux_zrun_short (tok : String) (now : Int) (st : ZStore) (r : Request)
    (hge : zcountFrom (st r.key).entries (now - r.duration) ≥ r.limit) :
    sortedSetCounterRun noZErrs tok now st r =
      ⟨some ⟨State.Deny, zcountFrom (st r.key).entries (now - r.duration),
             now + r.duration⟩, false, st⟩ := by
  unfold sortedSetCounterRun
  simp [noZErrs, hge]

theorem aux_zrun_batch_result (tok : String) (now : Int) (st : ZStore) (r : Request)
    (hlt : ¬ zcountFrom (st r.key).entries (now - r.duration) ≥ r.limit) :
    (sortedSetCounterRun noZErrs tok now st r).result =
      if (zadd (zremRange (st r.key).entries 0 (now - r.duration)) tok now).length > r.limit
      then some ⟨State.Deny,
        (zadd (zremRange (st r.key).entries 0 (now - r.duration)) tok now).length,
        now + r.duration⟩
      else some ⟨State.Allow,
        (zadd (zremRange (st r.key).entries 0 (now - r.duration)) tok now).length,
        now + r.duration⟩ := by
  unfold sortedSetCounterRun
  simp [noZErrs, hlt, apply_ite RunOut.result]

theorem aux_zrun_batch_store (tok : String) (now : Int) (st : ZStore) (r : Request)
    (hlt : ¬ zcountFrom (st r.key).entries (now - r.duration) ≥ r.limit) :
    (sortedSetCounterRun noZErrs tok now st r).store =
      zstoreSet st r.key (zadd (zremRange (st r.key).entries 0 (now - r.duration)) tok now) := by
  unfold sortedSetCounterRun
  simp [noZErrs, hlt, apply_ite RunOut.store]

theorem aux_zrun_step (tok1 tok2 : String) (now : Int) (s1 s2 : ZStore) (r : Request)
    (hsc : ∀ k, scoresOf s1 k = scoresOf s2 k)
    (hf1 : ∀ p ∈ (s1 r.key).entries, p.1 ≠ tok1)
    (hf2 : ∀ p ∈ (s2 r.key).entries, p.1 ≠ tok2) :
    (sortedSetCounterRun noZErrs tok1 now s1 r).result =
      (sortedSetCounterRun noZErrs tok2 now s2 r).result ∧
    (∀ k, scoresOf (sortedSetCounterRun noZErrs tok1 now s1 r).store k =
      scoresOf (sortedSetCounterRun noZErrs tok2 now s2 r).store k) ∧
    (∀ k m, m ∈ membersOf (sortedSetCounterRun noZErrs tok1 now s1 r).store k →
      m ∈ membersOf s1 k ∨ m = tok1) ∧
    (∀ k m, m ∈ membersOf (sortedSetCounterRun noZErrs tok2 now s2 r).store k →
      m ∈ membersOf s2 k ∨ m = tok2) := by
  have hsck : (s1 r.key).entries.map Prod.snd = (s2 r.key).entries.map Prod.snd :=
    hsc r.key
  have hcnt : zcountFrom (s1 r.key).entries (now - r.duration) =
      zcountFrom (s2 r.key).entries (now - r.duration) := by
    rw [aux_zcountFrom_scores, aux_zcountFrom_scores, hsck]
  by_cases hge : zcountFrom (s1 r.key).entries (now - r.duration) ≥ r.limit
  · have hge2 : zcountFrom (s2 r.key).entries (now - r.duration) ≥ r.limit := by
      rw [← hcnt]
      exact hge
    rw [aux_zrun_short tok1 now s1 r hge, aux_zrun_short tok2 now s2 r hge2]
    exact ⟨by rw [hcnt], fun k => hsc k,
      fun k m hm => Or.inl hm, fun k m hm => Or.inl hm⟩
  · have hlt2 : ¬ zcountFrom (s2 r.key).entries (now - r.duration) ≥ r.limit := by
      rw [← hcnt]
      exact hge
    have hrem : (zremRange (s1 r.key).entries 0 (now - r.duration)).map Prod.snd =
        (zremRange (s2 r.key).entries 0 (now - r.duration)).map Prod.snd := by
      rw [aux_zremRange_scores, aux_zremRange_scores, hsck]
    have hf1r : ∀ p ∈ zremRange (s1 r.key).entries 0 (now - r.duration), p.1 ≠ tok1 :=
      fun p hp => hf1 p (List.mem_filter.mp hp).1
    have hf2r : ∀ p ∈ zremRange (s2 r.key).entries 0 (now - r.duration), p.1 ≠ tok2 :=
      fun p hp => hf2 p (List.mem_filter.mp hp).1
    have hadd1 : zadd (zremRange (s1 r.key).entries 0 (now - r.duration)) tok1 now =
        zremRange (s1 r.key).entries 0 (now - r.duration) ++ [(tok1, now)] :=
      aux_zadd_fresh _ _ _ hf1r
    have hadd2 : zadd (zremRange (s2 r.key).entries 0 (now - r.duration)) tok2 now =
        zremRange (s2 r.key).entries 0 (now - r.duration) ++ [(tok2, now)] :=
      aux_zadd_fresh _ _ _ hf2r
    have haddsc : (zadd (zremRange (s1 r.key).entries 0 (now - r.duration)) tok1 now).map
          Prod.snd =
        (zadd (zremRange (s2 r.key).entries 0 (now - r.duration)) tok2 now).map
          Prod.snd := by
      rw [hadd1, hadd2, List.map_append, List.map_append, hrem]
      simp
    have hlen : (zadd (zremRange (s1 r.key).entries 0 (now - r.duration)) tok1 now).length =
        (zadd (zremRange (s2 r.key).entries 0 (now - r.duration)) tok2 now).length := by
      have h := congrArg List.length haddsc
      simpa using h
    refine ⟨?_, ?_, ?_, ?_⟩
    · rw [aux_zrun_batch_result tok1 now s1 r hge, aux_zrun_batch_result tok2 now s2 r hlt2,
        hlen]
    · intro k
      rw [aux_zrun_batch_store tok1 now s1 r hge, aux_zrun_batch_store tok2 now s2 r hlt2]
      by_cases hk : k = r.key
      · subst hk
        rw [aux_scoresOf_zstoreSet_at, aux_scoresOf_zstoreSet_at]
        exact haddsc
      · rw [aux_scoresOf_zstoreSet_ne _ _ _ _ hk, aux_scoresOf_zstoreSet_ne _ _ _ _ hk]
        exact hsc k
    · intro k m hm
      rw [aux_zrun_batch_store tok1 now s1 r hge] at hm
      by_cases hk : k = r.key
      · subst hk
        rw [aux_membersOf_zstoreSet_at, hadd1, List.map_append] at hm
        rcases List.mem_append.mp hm with h | h
        · exact Or.inl (aux_members_filter_sub _ _ _ h)
        · simp at h
          exact Or.inr h
      · rw [aux_membersOf_zstoreSet_ne _ _ _ _ hk] at hm
        exact Or.inl hm
    · intro k m hm
      rw [aux_zrun_batch_store tok2 now s2 r hlt2] at hm
      by_cases hk : k = r.key
      · subst hk
        rw [aux_membersOf_zstoreSet_at, hadd2, List.map_append] at hm
        rcases List.mem_append.mp hm with h | h
        · exact Or.inl (aux_members_filter_sub _ _ _ h)
        · simp at h
          exact Or.inr h
      · rw [aux_membersOf_zstoreSet_ne _ _ _ _ hk] at hm
        exact Or.inl hm

theorem aux_zscript_congr :
    ∀ (calls : List Call) (t1 t2 : List String) (s1 s2 : ZStore),
      t1.length = calls.length → t2.length = calls.length →
      t1.Nodup → t2.Nodup →
      (∀ k, scoresOf s1 k = scoresOf s2 k) →
      (∀ k m, m ∈ membersOf s1 k → m ∉ t1) →
      (∀ k m, m ∈ membersOf s2 k → m ∉ t2) →
      zscriptResults (calls.zip t1) s1 = zscriptResults (calls.zip t2) s2 := by
  intro calls
  induction calls with
  | nil =>
    intro t1 t2 s1 s2 _ _ _ _ _ _ _
    rfl
  | cons c cs ih =>
    intro t1 t2 s1 s2 hl1 hl2 hnd1 hnd2 hsc hm1 hm2
    cases t1 with
    | nil => simp at hl1
    | cons a1 t1 =>
      cases t2 with
      | nil => simp at hl2
      | cons a2 t2 =>
        have hf1 : ∀ p ∈ (s1 c.key).entries, p.1 ≠ a1 := by
          intro p hp heq
          have hmem : p.1 ∈ membersOf s1 c.key := List.mem_map_of_mem Prod.fst hp
          exact hm1 c.key p.1 hmem (heq ▸ List.mem_cons_self a1 t1)
        have hf2 : ∀ p ∈ (s2 c.key).entries, p.1 ≠ a2 := by
          intro p hp heq
          have hmem : p.1 ∈ membersOf s2 c.key := List.mem_map_of_mem Prod.fst hp
          exact hm2 c.key p.1 hmem (heq ▸ List.mem_cons_self a2 t2)
        obtain ⟨hres, hsc2, hmem1, hmem2⟩ :=
          aux_zrun_step a1 a2 c.time s1 s2 ⟨c.key, c.limit, c.duration⟩ hsc hf1 hf2
        simp only [List.zip_cons_cons, zscriptResults]
        rw [hres]
        congr 1
        apply ih t1 t2 _ _ (by simpa using hl1) (by simpa using hl2)
          (List.nodup_cons.mp hnd1).2 (List.nodup_cons.mp hnd2).2 hsc2
        · intro k m hm
          rcases hmem1 k m hm with h | h
          · intro hc
            exact hm1 k m h (List.mem_cons_of_mem a1 hc)
          · rw [h]
            exact (List.nodup_cons.mp hnd1).1
        · intro k m hm
          rcases hmem2 k m hm with h | h
          · intro hc
            exact hm2 k m h (List.mem_cons_of_mem a2 hc)
          · rw [h]
            exact (List.nodup_cons.mp hnd2).1

/-- Claim C9: both strategies are deterministic in their observable
Results.  The fixed-window strategy is embedded as a pure function of the
scripted calls, so two runs of the same script coincide definitionally;
the sliding-window strategy draws a fresh token (`uuid.New()`) per call,
and any two collision-free draws yield identical `Result` sequences from a
fresh store. -/
theorem claim_C9 :
    ∀ (calls : List Call) (t1 t2 : List String),
      t1.length = calls.length → t2.length = calls.length →
      t1.Nodup → t2.Nodup →
      zscriptResults (calls.zip t1) emptyZStore =
        zscriptResults (calls.zip t2) emptyZStore ∧
      (∀ (ts : List Int) (r : Request),
        counterScriptResults ts r emptyCounterStore =
          counterScriptResults ts r emptyCounterStore) := by
  intro calls t1 t2 hl1 hl2 hnd1 hnd2
  refine ⟨aux_zscript_congr calls t1 t2 emptyZStore emptyZStore hl1 hl2 hnd1 hnd2
    (fun k => rfl) ?_ ?_, fun ts r => rfl⟩
  · intro k m hm
    simp [membersOf, emptyZStore] at hm
  · intro k m hm
    simp [membersOf, emptyZStore] at hm

/-- Witness for claim C9: a two-call script under two different token
draws produces the same `Result` sequence. -/
theorem claim_C9_witness :
    zscriptResults ([⟨0, "k", 1, 60000⟩, ⟨1000, "k", 1, 60000⟩].zip ["a", "b"])
        emptyZStore =
      zscriptResults ([⟨0, "k", 1, 60000⟩, ⟨1000, "k", 1, 60000⟩].zip ["c", "d"])
        emptyZStore ∧
    counterScriptResults [0, 1000] ⟨"k", 1, 60000⟩ emptyCounterStore =
      counterScriptResults [0, 1000] ⟨"k", 1, 60000⟩ emptyCounterStore :=
  ⟨(claim_C9 [⟨0, "k", 1, 60000⟩, ⟨1000, "k", 1, 60000⟩] ["a", "b"] ["c", "d"]
      rfl rfl (by decide) (by decide)).1,
   (claim_C9 [⟨0, "k", 1, 60000⟩, ⟨1000, "k", 1, 60000⟩] ["a", "b"] ["c", "d"]
      rfl rfl (by decide) (by decide)).2 [0, 1000] ⟨"k", 1, 60000⟩⟩

/-- Claim C3 is refuted at this input: the stored entry has score exactly
equal to `windowStart = 61000 - 60000`, which the claim says is kept, yet
the batch (`ZREMRANGEBYSCORE key 0 windowStart`, inclusive bounds) removes
it: only the new token survives. -/
theorem claim_C3_counterexample :
    ((sortedSetCounterRun noZErrs "b" 61000 (zstoreSet emptyZStore "k" [("a", 1000)])
        ⟨"k", 10, 60000⟩).store "k").entries = [("b", 61000)] := by
  decide

/-- Claim C3 (amended): when the error-free pre-check does not deny and the
token is fresh, the batch leaves at the key exactly the pre-call entries
whose score is outside the inclusive range `[0, windowStart]` — so an entry
with score equal to `windowStart`, or below `0`, is removed resp. kept by
the inclusive `ZREMRANGEBYSCORE "0" windowStart` bounds — plus the new
token inserted with score `now`; the returned count is the size of that
set, and no other key changes. -/
theorem claim_C3_amended :
    ∀ (tok : String) (now : Int) (st : ZStore) (r : Request),
      (∀ p ∈ (st r.key).entries, p.1 ≠ tok) →
      zcountFrom (st r.key).entries (now - r.duration) < r.limit →
      (∀ m s, (m, s) ∈ ((sortedSetCounterRun noZErrs tok now st r).store r.key).entries ↔
        ((m, s) ∈ (st r.key).entries ∧ ¬(0 ≤ s ∧ s ≤ now - r.duration)) ∨
        (m = tok ∧ s = now)) ∧
      (∃ res, (sortedSetCounterRun noZErrs tok now st r).result = some res ∧
        res.totalRequests =
          ((sortedSetCounterRun noZErrs tok now st r).store r.key).entries.length) ∧
      (∀ k, k ≠ r.key → (sortedSetCounterRun noZErrs tok now st r).store k = st k) := by
  intro tok now st r hfresh hpre
  have hnge : ¬ (zcountFrom (st r.key).entries (now - r.duration) ≥ r.limit) := by
    omega
  have hfresh2 : ∀ p ∈ zremRange (st r.key).entries 0 (now - r.duration), p.1 ≠ tok := by
    intro p hp
    exact hfresh p (List.mem_filter.mp hp).1
  have hadd : zadd (zremRange (st r.key).entries 0 (now - r.duration)) tok now =
      zremRange (st r.key).entries 0 (now - r.duration) ++ [(tok, now)] :=
    aux_zadd_fresh _ _ _ hfresh2
  have hstore : (sortedSetCounterRun noZErrs tok now st r).store =
      zstoreSet st r.key (zadd (zremRange (st r.key).entries 0 (now - r.duration)) tok now) := by
    unfold sortedSetCounterRun
    simp only [apply_ite RunOut.store]
    repeat' split
    all_goals try rfl
    all_goals simp_all [noZErrs]
    all_goals omega
  have hlen : ∃ res, (sortedSetCounterRun noZErrs tok now st r).result = some res ∧
      res.totalRequests =
        (zadd (zremRange (st r.key).entries 0 (now - r.duration)) tok now).length := by
    unfold sortedSetCounterRun
    simp only [apply_ite RunOut.result]
    repeat' split
    all_goals first
    | exact ⟨_, rfl, rfl⟩
    | (simp_all [noZErrs]; try omega)
  refine ⟨?_, ?_, ?_⟩
  · intro m s
    rw [hstore, aux_zstoreSet_at]
    simp only [hadd]
    unfold zremRange
    simp only [List.mem_append, List.mem_filter, List.mem_singleton, Prod.mk.injEq,
      Bool.not_eq_eq_eq_not, Bool.not_true, Bool.and_eq_false_iff,
      decide_eq_false_iff_not, not_le]
    constructor
    · rintro (⟨hm, hk | hk⟩ | ⟨h1, h2⟩)
      · exact Or.inl ⟨hm, by omega⟩
      · exact Or.inl ⟨hm, by omega⟩
      · exact Or.inr ⟨h1, h2⟩
    · rintro (⟨hm, hk⟩ | ⟨h1, h2⟩)
      · exact Or.inl ⟨hm, by omega⟩
      · exact Or.inr ⟨h1, h2⟩
  · obtain ⟨res, hr, hlen2⟩ := hlen
    refine ⟨res, hr, ?_⟩
    rw [hlen2, hstore, aux_zstoreSet_at]
  · intro k hk
    rw [hstore]
    unfold zstoreSet
    simp [hk]

/-- Witness for claim C3 (amended) at the counterexample input. -/
theorem claim_C3_amended_witness :
    (∀ m s, (m, s) ∈ ((sortedSetCounterRun noZErrs "b" 61000
        (zstoreSet emptyZStore "k" [("a", 1000)]) ⟨"k", 10, 60000⟩).store "k").entries ↔
      ((m, s) ∈ ((zstoreSet emptyZStore "k" [("a", 1000)]) "k").entries ∧
        ¬(0 ≤ s ∧ s ≤ 61000 - 60000)) ∨
      (m = "b" ∧ s = 61000)) ∧
    (∃ res, (sortedSetCounterRun noZErrs "b" 61000
        (zstoreSet emptyZStore "k" [("a", 1000)]) ⟨"k", 10, 60000⟩).result = some res ∧
      res.totalRequests = ((sortedSetCounterRun noZErrs "b" 61000
        (zstoreSet emptyZStore "k" [("a", 1000)]) ⟨"k", 10, 60000⟩).store "k").entries.length) ∧
    (∀ k, k ≠ "k" → (sortedSetCounterRun noZErrs "b" 61000
        (zstoreSet emptyZStore "k" [("a", 1000)]) ⟨"k", 10, 60000⟩).store k =
      (zstoreSet emptyZStore "k" [("a", 1000)]) k) :=
  claim_C3_amended "b" 61000 (zstoreSet emptyZStore "k" [("a", 1000)])
    ⟨"k", 10, 60000⟩ (by decide) (by decide)

end RedisRateLimiter
